import Mathlib

/-!
Shallow embedding of the Market Signal Dashboard synchronization pipeline
(the Google Apps Script backend: syncData_web, validateData,
validateEnrichedData, mergeSignalData, removeDuplicateTickers,
saveToArchive, cleanOldArchiveData, logSyncError, doGet).

Sheet cell values are modelled by small inductive types: numeric cells by
`NumField` (missing / NaN / rational number), timestamp cells by `TsField`
(missing, Date object, parsable string, unparsable string), and cells the
pipeline merely copies around by `JsVal`. JavaScript objects built from a
fixed literal are modelled as Lean structures together with the literal
key list (for hasOwnProperty checks). JavaScript plain objects used as
maps (tickerMap, techMap, fundMap, companyNames) are modelled as
association lists with in-place update and append-on-new-key, which is
the insertion-order semantics of string-keyed JS objects.
-/

namespace MarketSignal

/-- A generic spreadsheet cell value that the pipeline only copies around. -/
inductive JsVal where
  | undef
  | vnum (q : ℚ)
  | vstr (s : String)
deriving DecidableEq

/-- A numeric cell: absent (undefined / null / empty, all falsy), NaN, or a number. -/
inductive NumField where
  | missing
  | nan
  | num (q : ℚ)
deriving DecidableEq

/-- JS truthiness of a numeric cell: 0, NaN and absent values are falsy. -/
def NumField.truthy : NumField → Bool
  | .missing => false
  | .nan => false
  | .num q => q != 0

/-- JS isNaN applied to a numeric cell (isNaN coerces undefined to NaN). -/
def NumField.isNaNJs : NumField → Bool
  | .missing => true
  | .nan => true
  | .num _ => false

/-- JS comparison value <= 0; comparisons against NaN are false. -/
def NumField.le0 : NumField → Bool
  | .num q => q ≤ 0
  | _ => false

/-- JS comparison value < 0; comparisons against NaN are false. -/
def NumField.lt0 : NumField → Bool
  | .num q => q < 0
  | _ => false

/-- JS comparison value > 100; comparisons against NaN are false. -/
def NumField.gt100 : NumField → Bool
  | .num q => 100 < q
  | _ => false

/-- The numeric value of a cell; NaN and absent cells have no meaningful
value and are only read under a truthiness guard in the source. -/
def NumField.toQ : NumField → ℚ
  | .num q => q
  | _ => 0

/-- A timestamp cell: absent (falsy), a Date object with time value t,
a string that new Date(s) parses to time value t, or a non-empty string
that does not parse (new Date(s).getTime() is NaN). -/
inductive TsField where
  | missing
  | dateObj (t : ℤ)
  | strParsable (t : ℤ)
  | strUnparsable
deriving DecidableEq

/-- JS truthiness of a timestamp cell: objects and non-empty strings are truthy. -/
def TsField.truthy : TsField → Bool
  | .missing => false
  | _ => true

/-- Whether the cell holds a Date object (the instanceof Date test). -/
def TsField.isDateObj : TsField → Bool
  | .dateObj _ => true
  | _ => false

/-- The time value of new Date(cell): none models an invalid date (NaN time).
new Date(undefined) is an invalid date. -/
def parseTs : TsField → Option ℤ
  | .missing => none
  | .dateObj t => some t
  | .strParsable t => some t
  | .strUnparsable => none

/-- JS < on two Date time values: any comparison involving NaN is false. -/
def jsLt : Option ℤ → Option ℤ → Bool
  | some a, some b => a < b
  | _, _ => false

/-- A signal record exactly as built by getFinalSignals (one field per
mapped column). -/
structure Signal where
  timestamp : TsField
  ticker : String
  decision : JsVal
  sellTarget : NumField
  targetHorizon : JsVal
  confidence : NumField
  riskLevel : JsVal
  summary : JsVal
  macroMood : JsVal
  techScore : JsVal
deriving DecidableEq

/-- The own-property keys of a signal object (the getFinalSignals literal). -/
def signalKeys : List String :=
  ["timestamp", "ticker", "decision", "sellTarget", "targetHorizon",
   "confidence", "riskLevel", "summary", "macroMood", "techScore"]

/-- A technical-analysis record exactly as built by getTechnicalData. -/
structure TechRecord where
  ticker : String
  currentPrice : NumField
  week52High : JsVal
  week52Low : JsVal
  rsi : JsVal
  volumeSpike : JsVal
  macd : JsVal
  gapStatus : JsVal
  ma50 : JsVal
  ma200 : JsVal
  atr : JsVal
  technicalScore : JsVal
  timestamp : JsVal
deriving DecidableEq

/-- The empty object used as the fallback techMap[ticker] || \x7b\x7d: every
field access yields undefined. -/
def TechRecord.emptyObj : TechRecord :=
  { ticker := "", currentPrice := .missing, week52High := .undef,
    week52Low := .undef, rsi := .undef, volumeSpike := .undef, macd := .undef,
    gapStatus := .undef, ma50 := .undef, ma200 := .undef, atr := .undef,
    technicalScore := .undef, timestamp := .undef }

/-- A fundamentals record exactly as built by getFundamentals. The source
fields peRatio and currentRatio carry an X suffix here. -/
structure FundRecord where
  ticker : String
  marketCap : JsVal
  peRatioX : JsVal
  revenueGrowth : JsVal
  profitMargin : JsVal
  roe : JsVal
  epsGrowth : JsVal
  debtToEquity : JsVal
  peg : JsVal
  evEbitda : JsVal
  fcfShare : JsVal
  sector : JsVal
  industry : JsVal
  currentRatioX : JsVal
deriving DecidableEq

/-- The empty object used as the fallback fundMap[ticker] || \x7b\x7d. -/
def FundRecord.emptyObj : FundRecord :=
  { ticker := "", marketCap := .undef, peRatioX := .undef,
    revenueGrowth := .undef, profitMargin := .undef, roe := .undef,
    epsGrowth := .undef, debtToEquity := .undef, peg := .undef,
    evEbitda := .undef, fcfShare := .undef, sector := .undef,
    industry := .undef, currentRatioX := .undef }

/-- The single market-sentiment record returned by getMarketSentiment. -/
structure Sentiment where
  marketMood : JsVal
  macroStrength : JsVal
  volatilityLevel : JsVal
  summary : JsVal
  date : JsVal
deriving DecidableEq

/-- The merge output row, mirroring the object literal built inside
mergeSignalData field for field (source fields PERatio and CurrentRatio
carry an X suffix here). Upside is the rational denoted by the toFixed(1)
result, or none when the source stores null. -/
structure EnrichedRow where
  Date : String
  Timestamp : TsField
  Ticker : String
  CompanyName : String
  Decision : JsVal
  SellTarget : NumField
  TargetHorizon : JsVal
  Confidence : NumField
  RiskLevel : JsVal
  Summary : JsVal
  MacroMood : JsVal
  TechScore : JsVal
  CurrentPrice : NumField
  Week52High : JsVal
  Week52Low : JsVal
  RSI : JsVal
  VolumeSpike : JsVal
  MACD : JsVal
  GapStatus : JsVal
  MA50 : JsVal
  MA200 : JsVal
  ATR : JsVal
  TechnicalScore : JsVal
  MarketCap : JsVal
  PERatioX : JsVal
  RevenueGrowth : JsVal
  ProfitMargin : JsVal
  ROE : JsVal
  EPSGrowth : JsVal
  DebtToEquity : JsVal
  PEG : JsVal
  EVEbitda : JsVal
  FCFShare : JsVal
  Sector : JsVal
  Industry : JsVal
  CurrentRatioX : JsVal
  Upside : Option ℚ
  MarketMood : JsVal
  MacroStrength : JsVal
  VolatilityLevel : JsVal
  SentimentSummary : JsVal
  SentimentDate : JsVal
deriving DecidableEq

/-- The own-property keys of the EnrichedRow literal, in source order. -/
def enrichedRowKeys : List String :=
  ["Date", "Timestamp", "Ticker", "CompanyName", "Decision", "SellTarget",
   "TargetHorizon", "Confidence", "RiskLevel", "Summary", "MacroMood",
   "TechScore", "CurrentPrice", "Week52High", "Week52Low", "RSI",
   "VolumeSpike", "MACD", "GapStatus", "MA50", "MA200", "ATR",
   "TechnicalScore", "MarketCap", "PERatio", "RevenueGrowth",
   "ProfitMargin", "ROE", "EPSGrowth", "DebtToEquity", "PEG", "EVEbitda",
   "FCFShare", "Sector", "Industry", "CurrentRatio", "Upside",
   "MarketMood", "MacroStrength", "VolatilityLevel", "SentimentSummary",
   "SentimentDate"]

/-- Lookup in a string-keyed JS object modelled as an association list. -/
def mapLookup {α : Type} (m : List (String × α)) (k : String) : Option α :=
  (m.find? (fun p => p.1 == k)).map Prod.snd

/-- Assignment obj[k] = v on a string-keyed JS object: replaces the value
in place when the key exists, otherwise appends the new key (JS string
keys keep insertion order). -/
def mapSet {α : Type} (m : List (String × α)) (k : String) (v : α) :
    List (String × α) :=
  if m.any (fun p => p.1 == k) then
    m.map (fun p => if p.1 == k then (k, v) else p)
  else
    m ++ [(k, v)]

/-- One iteration of the removeDuplicateTickers forEach: store the signal
when no signal is stored for its ticker or when the stored timestamp
parses strictly earlier than the new one (NaN comparisons are false). -/
def dedupStep (m : List (String × Signal)) (s : Signal) :
    List (String × Signal) :=
  match mapLookup m s.ticker with
  | none => mapSet m s.ticker s
  | some stored =>
      if jsLt (parseTs stored.timestamp) (parseTs s.timestamp) then
        mapSet m s.ticker s
      else
        m

/-- removeDuplicateTickers: fold the signals through tickerMap and return
Object.values(tickerMap) (removedTickers only feeds a log line). -/
def removeDuplicateTickers (signals : List Signal) : List Signal :=
  (signals.foldl dedupStep []).map Prod.snd

/-- The per-key effect of one dedupStep on the entry stored for key k. -/
def dedupStepK (acc : Option Signal) (s : Signal) : Option Signal :=
  match acc with
  | none => some s
  | some stored =>
      if jsLt (parseTs stored.timestamp) (parseTs s.timestamp) then some s
      else some stored

/-- The entry tickerMap stores for key k after processing the whole list. -/
def storedAfter (signals : List Signal) (k : String) : Option Signal :=
  signals.foldl (fun acc s => if s.ticker == k then dedupStepK acc s else acc)
    none

/-- The rational denoted by x.toFixed(1): round to one decimal, ties toward
positive infinity (ECMAScript picks the larger candidate on a tie). -/
def toFixed1 (x : ℚ) : ℚ :=
  (((x * 10 + 1 / 2).floor : ℤ) : ℚ) / 10

/-- The upside computation of mergeSignalData: null unless both
tech.currentPrice and signal.sellTarget are truthy (present, numeric and
nonzero), otherwise the rounded percentage. -/
def upsideOf (currentPrice sellTarget : NumField) : Option ℚ :=
  if currentPrice.truthy && sellTarget.truthy then
    some (toFixed1 ((sellTarget.toQ - currentPrice.toQ) / currentPrice.toQ * 100))
  else
    none

/-- The loop body of mergeSignalData for one deduplicated signal, with the
dateString binding supplied explicitly as an argument. In the source,
dateString is a free variable inside mergeSignalData (see mergeSignalData
below); this function is the enrichment the merge contract describes,
given a value for that binding. -/
def enrichRow (dateString : String) (techMap : List (String × TechRecord))
    (fundMap : List (String × FundRecord)) (marketSentiment : Sentiment)
    (companyNames : List (String × String)) (signal : Signal) : EnrichedRow :=
  let ticker := signal.ticker
  let tech := (mapLookup techMap ticker).getD TechRecord.emptyObj
  let fund := (mapLookup fundMap ticker).getD FundRecord.emptyObj
  let companyName :=
    match mapLookup companyNames ticker with
    | some n => if n == "" then ticker else n
    | none => ticker
  { Date := dateString,
    Timestamp := signal.timestamp,
    Ticker := ticker,
    CompanyName := companyName,
    Decision := signal.decision,
    SellTarget := signal.sellTarget,
    TargetHorizon := signal.targetHorizon,
    Confidence := signal.confidence,
    RiskLevel := signal.riskLevel,
    Summary := signal.summary,
    MacroMood := signal.macroMood,
    TechScore := signal.techScore,
    CurrentPrice := tech.currentPrice,
    Week52High := tech.week52High,
    Week52Low := tech.week52Low,
    RSI := tech.rsi,
    VolumeSpike := tech.volumeSpike,
    MACD := tech.macd,
    GapStatus := tech.gapStatus,
    MA50 := tech.ma50,
    MA200 := tech.ma200,
    ATR := tech.atr,
    TechnicalScore := tech.technicalScore,
    MarketCap := fund.marketCap,
    PERatioX := fund.peRatioX,
    RevenueGrowth := fund.revenueGrowth,
    ProfitMargin := fund.profitMargin,
    ROE := fund.roe,
    EPSGrowth := fund.epsGrowth,
    DebtToEquity := fund.debtToEquity,
    PEG := fund.peg,
    EVEbitda := fund.evEbitda,
    FCFShare := fund.fcfShare,
    Sector := fund.sector,
    Industry := fund.industry,
    CurrentRatioX := fund.currentRatioX,
    Upside := upsideOf tech.currentPrice signal.sellTarget,
    MarketMood := marketSentiment.marketMood,
    MacroStrength := marketSentiment.macroStrength,
    VolatilityLevel := marketSentiment.volatilityLevel,
    SentimentSummary := marketSentiment.summary,
    SentimentDate := marketSentiment.date }

/-- The techMap built by the forEach over technicalData (last record per
ticker wins, as later assignments overwrite). -/
def buildTechMap (technicalData : List TechRecord) :
    List (String × TechRecord) :=
  technicalData.foldl (fun m t => mapSet m t.ticker t) []

/-- The fundMap built by the forEach over fundamentals. -/
def buildFundMap (fundamentals : List FundRecord) :
    List (String × FundRecord) :=
  fundamentals.foldl (fun m f => mapSet m f.ticker f) []

/-- The enrichment mergeSignalData performs once a value for the dateString
binding is available: dedupe, build lookup maps, enrich every unique signal. -/
def mergeRows (dateString : String) (finalSignals : List Signal)
    (technicalData : List TechRecord) (fundamentals : List FundRecord)
    (marketSentiment : Sentiment) (companyNames : List (String × String)) :
    List EnrichedRow :=
  (removeDuplicateTickers finalSignals).map
    (enrichRow dateString (buildTechMap technicalData)
      (buildFundMap fundamentals) marketSentiment companyNames)

/-- The run-level failures of the pipeline. dateStringNotDefined is the
ReferenceError raised when mergeSignalData reads the identifier dateString,
which is declared inside syncData_web (a const local to that function) and
is neither a parameter of mergeSignalData nor a global. -/
inductive SyncError where
  | dataValidationFailed
  | dateStringNotDefined
  | enrichedValidationFailed
  | noValidSignals
deriving DecidableEq

/-- mergeSignalData as it actually executes: it dedupes the signals and then
runs the forEach; the first iteration evaluates the row literal, whose
first property reads the unbound identifier dateString and raises a
ReferenceError. With no unique signal the forEach body never runs and the
empty array is returned. -/
def mergeSignalData (finalSignals : List Signal)
    (_technicalData : List TechRecord) (_fundamentals : List FundRecord)
    (_marketSentiment : Sentiment) (_companyNames : List (String × String)) :
    Except SyncError (List EnrichedRow) :=
  if (removeDuplicateTickers finalSignals).isEmpty then
    .ok []
  else
    .error .dateStringNotDefined

/-- The required-field list of the pre-merge gate validateData. -/
def requiredSignalFields : List String :=
  ["ticker", "decision", "sellTarget", "confidence", "riskLevel", "summary"]

/-- validateData: false when the signal array is empty, then hasOwnProperty
checks on the first signal (records built by getFinalSignals always carry
the full signalKeys literal, so the check is a lookup in that key list);
the marketSentiment check only logs a warning. -/
def validateData (finalSignals : List Signal) : Bool :=
  !finalSignals.isEmpty &&
    requiredSignalFields.all (fun f => signalKeys.contains f)

/-- The required-field list of the post-merge gate validateEnrichedData
(lower-case names, exactly as written in the source). -/
def requiredEnrichedFields : List String :=
  ["ticker", "companyName", "decision", "sellTarget", "confidence",
   "riskLevel", "summary", "currentPrice"]

/-- validateEnrichedData: false when the array is empty, then
hasOwnProperty checks on the first row; rows built by the merge literal
carry exactly the enrichedRowKeys, so the check is a lookup in that list. -/
def validateEnrichedData (enrichedData : List EnrichedRow) : Bool :=
  !enrichedData.isEmpty &&
    requiredEnrichedFields.all (fun f => enrichedRowKeys.contains f)

/-- The per-row filter of syncData_web. Every check is guarded by the JS
truthiness of the field, so falsy values (absent, 0, NaN) skip their check. -/
def rowPasses (row : EnrichedRow) : Bool :=
  if row.CurrentPrice.truthy && (row.CurrentPrice.isNaNJs || row.CurrentPrice.le0) then
    false
  else if row.SellTarget.truthy && (row.SellTarget.isNaNJs || row.SellTarget.le0) then
    false
  else if row.Confidence.truthy &&
      (row.Confidence.isNaNJs || row.Confidence.lt0 || row.Confidence.gt100) then
    false
  else if row.Timestamp.truthy && !row.Timestamp.isDateObj &&
      (parseTs row.Timestamp).isNone then
    false
  else
    true

/-- The fixed archive header row written when the archive sheet is created. -/
def archiveHeaders : List String := enrichedRowKeys

/-- saveToArchive: create the archive (with archiveHeaders) when absent,
then append the rows strictly after the current last row. The dateString
argument of the source function is unused by its body. -/
def saveToArchive (archive : Option (List EnrichedRow))
    (enrichedData : List EnrichedRow) : Option (List EnrichedRow) :=
  some (archive.getD [] ++ enrichedData)

/-- The deletion list built by cleanOldArchiveData: walk the data rows from
the last to the first and record sheet position i + 2 (one header row plus
one-based indexing) for every row whose Date cell is truthy and compares
lexicographically below the cutoff string. -/
def cleanDeletions (rows : List EnrichedRow) (cutoffString : String) :
    List Nat :=
  (List.range rows.length).reverse.filterMap fun i =>
    match rows[i]? with
    | some r => if r.Date != "" && r.Date < cutoffString then some (i + 2) else none
    | none => none

/-- Apply deleteRow for each recorded sheet position, from the bottom up,
exactly in the recorded order; sheet position k is data index k - 2. -/
def applyDeletes (rows : List EnrichedRow) (ds : List Nat) :
    List EnrichedRow :=
  ds.foldl (fun acc k => acc.eraseIdx (k - 2)) rows

/-- A data row survives the retention sweep when its Date cell is falsy or
not lexicographically below the cutoff string. -/
def keepRow (cutoffString : String) (r : EnrichedRow) : Bool :=
  !(r.Date != "" && r.Date < cutoffString)

/-- cleanOldArchiveData: no-op when the archive sheet is absent or the Date
column is missing from the header (the header is the fixed archiveHeaders,
which does contain Date); otherwise delete every row older than the cutoff. -/
def cleanOldArchiveData (archive : Option (List EnrichedRow))
    (cutoffString : String) : Option (List EnrichedRow) :=
  match archive with
  | none => none
  | some rows =>
      if archiveHeaders.contains "Date" then
        some (applyDeletes rows (cleanDeletions rows cutoffString))
      else
        some rows

/-- logSyncError: create the error sheet when absent and append one
(Timestamp, Error, Details) row; the timestamp and details are host values
and the record is identified here by its error tag. -/
def logSyncError (errors : List SyncError) (e : SyncError) : List SyncError :=
  errors ++ [e]

/-- The durable state the pipeline mutates: the archive sheet (none when it
does not exist yet) and the error-ledger rows. -/
structure SyncState where
  archive : Option (List EnrichedRow)
  errors : List SyncError
deriving DecidableEq

/-- syncData_web given the values read from the source sheets and the two
clock-derived strings: run the gates, merge, filter, then archive and sweep;
any thrown error is logged to the ledger via logSyncError and re-raised. -/
def syncData_web (cutoffString : String) (finalSignals : List Signal)
    (technicalData : List TechRecord) (fundamentals : List FundRecord)
    (marketSentiment : Sentiment) (companyNames : List (String × String))
    (st : SyncState) : Except SyncError Unit × SyncState :=
  let run : Except SyncError (List EnrichedRow) :=
    if !validateData finalSignals then
      .error .dataValidationFailed
    else
      match mergeSignalData finalSignals technicalData fundamentals
          marketSentiment companyNames with
      | .error e => .error e
      | .ok enrichedData =>
          if !validateEnrichedData enrichedData then
            .error .enrichedValidationFailed
          else
            let validatedData := enrichedData.filter rowPasses
            if validatedData.isEmpty then .error .noValidSignals
            else .ok validatedData
  match run with
  | .ok validatedData =>
      let afterSave := saveToArchive st.archive validatedData
      let afterClean := cleanOldArchiveData afterSave cutoffString
      (.ok (), { archive := afterClean, errors := st.errors })
  | .error e =>
      (.error e, { archive := st.archive, errors := logSyncError st.errors e })

/-- A doGet response body; the transport status is success in every case. -/
inductive ApiPayload where
  | errorBody (message : String) (details : Option String)
  | successBody (data : List EnrichedRow)
deriving DecidableEq

/-- doGet over the outcome of its read path: a missing archive sheet yields
the well-formed error body, a read failure is caught and yields the caught
error body, and an existing archive yields the success body with every row. -/
def doGet (readResult : Except String (Option (List EnrichedRow))) :
    ApiPayload :=
  match readResult with
  | .error e => .errorBody "Failed to fetch data" (some e)
  | .ok none => .errorBody "Archive data not found" none
  | .ok (some rows) => .successBody rows

/-- Well-formedness of the tickerMap association list: keys are distinct and
every stored signal sits under its own ticker. -/
def WFmap (m : List (String × Signal)) : Prop :=
  (m.map Prod.fst).Nodup ∧ ∀ p ∈ m, p.2.ticker = p.1

/-- The per-key fold describing what tickerMap stores for key k, starting
from an arbitrary current entry. -/
def foldK (k : String) (l : List Signal) (acc : Option Signal) :
    Option Signal :=
  l.foldl (fun a s => if s.ticker == k then dedupStepK a s else a) acc

/-- A concrete sentiment record with every cell absent. -/
def sent0 : Sentiment := ⟨.undef, .undef, .undef, .undef, .undef⟩

/-- A concrete well-formed BUY signal. -/
def sigA : Signal :=
  { timestamp := .strParsable 0, ticker := "AAPL", decision := .vstr "BUY",
    sellTarget := .num 150, targetHorizon := .undef, confidence := .num 85,
    riskLevel := .vstr "Medium", summary := .vstr "solid",
    macroMood := .undef, techScore := .undef }

/-- A concrete technical record for the same ticker. -/
def techA : TechRecord :=
  { TechRecord.emptyObj with ticker := "AAPL", currentPrice := .num 145 }

/-- A technical record whose current price is the number 0. -/
def techZero : TechRecord :=
  { TechRecord.emptyObj with ticker := "AAPL", currentPrice := .num 0 }

/-- A signal whose sell target is the number 0 (present but falsy). -/
def sigZeroTarget : Signal := { sigA with sellTarget := .num 0 }

/-- A signal whose sell target is negative, failing the per-row filter. -/
def sigNegTarget : Signal := { sigA with sellTarget := .num (-5) }

/-- Two same-ticker signals with parsable timestamps 5 and 10. -/
def sigMsftEarly : Signal :=
  { sigA with ticker := "MSFT", timestamp := .strParsable 5 }

/-- The later of the two MSFT signals. -/
def sigMsftLate : Signal :=
  { sigA with ticker := "MSFT", timestamp := .strParsable 10, confidence := .num 90 }

/-- A signal whose timestamp string does not parse. -/
def sigTslaBad : Signal :=
  { sigA with ticker := "TSLA", timestamp := .strUnparsable }

/-- A same-ticker signal with a parsable timestamp. -/
def sigTslaGood : Signal :=
  { sigA with ticker := "TSLA", timestamp := .strParsable 100, confidence := .num 70 }

/-- Two same-ticker signals whose timestamps parse to the same instant. -/
def sigTieOne : Signal :=
  { sigA with ticker := "NVDA", timestamp := .strParsable 7 }

/-- The second record of the tie, distinguishable from the first. -/
def sigTieTwo : Signal :=
  { sigA with ticker := "NVDA", timestamp := .strParsable 7, confidence := .num 60 }

/-- A concrete merge-shaped row (the enrichment of sigA). -/
def rowA : EnrichedRow :=
  enrichRow "2024-01-01" (buildTechMap [techA]) (buildFundMap []) sent0 [] sigA

/-- A concrete pipeline state with one archived row and an empty ledger. -/
def stA : SyncState := { archive := some [rowA], errors := [] }

/-- The spec-side order on parsed timestamps, used to state the claims about
latest-wins deduplication: an unparsable timestamp is treated as earlier
than any parsable one. -/
def specTsLe : Option ℤ → Option ℤ → Prop
  | none, _ => True
  | some _, none => False
  | some a, some b => a ≤ b

instance (a b : Option ℤ) : Decidable (specTsLe a b) := by
  cases a <;> cases b <;> simp only [specTsLe] <;> infer_instance

/-! Association-list lemmas for the JS-object model. -/

theorem find?_map_replace_self {α : Type} (m : List (String × α)) (k : String)
    (v : α) (h : m.any (fun p => p.1 == k) = true) :
    (m.map (fun p => if p.1 == k then (k, v) else p)).find?
      (fun p => p.1 == k) = some (k, v) := by
  induction m with
  | nil => simp at h
  | cons a m ih =>
    simp only [List.map_cons]
    by_cases hk : a.1 = k
    · have hcond : (if (a.1 == k) = true then (k, v) else a) = (k, v) :=
        if_pos (by simp [hk])
      rw [hcond]
      exact List.find?_cons_of_pos _ (by simp)
    · have hcond : (if (a.1 == k) = true then (k, v) else a) = a :=
        if_neg (by simp [hk])
      have hk' : (a.1 == k) = false := by simp [hk]
      simp only [List.any_cons, hk', Bool.false_or] at h
      rw [hcond, List.find?_cons_of_neg _ (by simp [hk])]
      exact ih h

theorem find?_map_replace_ne {α : Type} (m : List (String × α))
    (k k2 : String) (v : α) (h : k2 ≠ k) :
    (m.map (fun p => if p.1 == k then (k, v) else p)).find?
      (fun p => p.1 == k2) = m.find? (fun p => p.1 == k2) := by
  induction m with
  | nil => rfl
  | cons a m ih =>
    simp only [List.map_cons]
    by_cases hk : a.1 = k
    · have hcond : (if (a.1 == k) = true then (k, v) else a) = (k, v) :=
        if_pos (by simp [hk])
      rw [hcond, List.find?_cons_of_neg _ (by simp [Ne.symm h]),
        List.find?_cons_of_neg _ (by simp [hk, Ne.symm h])]
      exact ih
    · have hcond : (if (a.1 == k) = true then (k, v) else a) = a :=
        if_neg (by simp [hk])
      rw [hcond]
      by_cases h2 : a.1 = k2
      · rw [List.find?_cons_of_pos _ (by simp [h2]),
          List.find?_cons_of_pos _ (by simp [h2])]
      · rw [List.find?_cons_of_neg _ (by simp [h2]),
          List.find?_cons_of_neg _ (by simp [h2])]
        exact ih

theorem mapLookup_mapSet_self {α : Type} (m : List (String × α)) (k : String)
    (v : α) : mapLookup (mapSet m k v) k = some v := by
  unfold mapLookup mapSet
  by_cases h : m.any (fun p => p.1 == k) = true
  · rw [if_pos h, find?_map_replace_self m k v h]
    rfl
  · rw [if_neg h, List.find?_append]
    have hn : m.find? (fun p => p.1 == k) = none := by
      rw [List.find?_eq_none]
      intro x hx hpx
      exact h (List.any_eq_true.mpr ⟨x, hx, hpx⟩)
    simp [hn]

theorem mapLookup_mapSet_ne {α : Type} (m : List (String × α))
    (k k2 : String) (v : α) (h : k2 ≠ k) :
    mapLookup (mapSet m k v) k2 = mapLookup m k2 := by
  unfold mapLookup mapSet
  by_cases hany : m.any (fun p => p.1 == k) = true
  · rw [if_pos hany, find?_map_replace_ne m k k2 v h]
  · rw [if_neg hany, List.find?_append]
    have h1 : ([(k, v)].find? fun p => p.1 == k2) = none := by
      simp [Ne.symm h]
    rw [h1]
    simp

theorem keys_mapSet {α : Type} (m : List (String × α)) (k : String) (v : α) :
    (mapSet m k v).map Prod.fst =
      if m.any (fun p => p.1 == k) then m.map Prod.fst
      else m.map Prod.fst ++ [k] := by
  unfold mapSet
  by_cases h : m.any (fun p => p.1 == k) = true
  · rw [if_pos h, if_pos h]
    rw [List.map_map]
    apply List.map_congr_left
    intro p _
    by_cases hpk : p.1 = k <;> simp [hpk]
  · rw [if_neg h, if_neg h, List.map_append]
    rfl

theorem mapLookup_eq_none_iff {α : Type} (m : List (String × α)) (k : String) :
    mapLookup m k = none ↔ m.any (fun p => p.1 == k) = false := by
  unfold mapLookup
  rw [Option.map_eq_none', List.find?_eq_none, List.any_eq_false]

/-! Per-key behaviour of the deduplication fold. -/

theorem dedupStep_eq_of_none (m : List (String × Signal)) (s : Signal)
    (hl : mapLookup m s.ticker = none) : dedupStep m s = mapSet m s.ticker s := by
  unfold dedupStep
  rw [hl]

theorem dedupStep_eq_of_lt (m : List (String × Signal)) (s stored : Signal)
    (hl : mapLookup m s.ticker = some stored)
    (hlt : jsLt (parseTs stored.timestamp) (parseTs s.timestamp) = true) :
    dedupStep m s = mapSet m s.ticker s := by
  unfold dedupStep
  rw [hl]
  show (if jsLt (parseTs stored.timestamp) (parseTs s.timestamp) = true
    then mapSet m s.ticker s else m) = mapSet m s.ticker s
  rw [if_pos hlt]

theorem dedupStep_eq_of_ge (m : List (String × Signal)) (s stored : Signal)
    (hl : mapLookup m s.ticker = some stored)
    (hlt : ¬ jsLt (parseTs stored.timestamp) (parseTs s.timestamp) = true) :
    dedupStep m s = m := by
  unfold dedupStep
  rw [hl]
  show (if jsLt (parseTs stored.timestamp) (parseTs s.timestamp) = true
    then mapSet m s.ticker s else m) = m
  rw [if_neg hlt]

theorem mapLookup_dedupStep (m : List (String × Signal)) (s : Signal)
    (k : String) :
    mapLookup (dedupStep m s) k =
      if s.ticker = k then dedupStepK (mapLookup m k) s else mapLookup m k := by
  by_cases hk : s.ticker = k
  · subst hk
    rw [if_pos rfl]
    cases hl : mapLookup m s.ticker with
    | none =>
      rw [dedupStep_eq_of_none m s hl, mapLookup_mapSet_self]
      rfl
    | some stored =>
      by_cases hlt : jsLt (parseTs stored.timestamp) (parseTs s.timestamp) = true
      · rw [dedupStep_eq_of_lt m s stored hl hlt, mapLookup_mapSet_self]
        show some s = if jsLt (parseTs stored.timestamp) (parseTs s.timestamp) = true
          then some s else some stored
        rw [if_pos hlt]
      · rw [dedupStep_eq_of_ge m s stored hl hlt, hl]
        show some stored = if jsLt (parseTs stored.timestamp) (parseTs s.timestamp) = true
          then some s else some stored
        rw [if_neg hlt]
  · rw [if_neg hk]
    cases hl : mapLookup m s.ticker with
    | none =>
      rw [dedupStep_eq_of_none m s hl]
      exact mapLookup_mapSet_ne m s.ticker k s (Ne.symm hk)
    | some stored =>
      by_cases hlt : jsLt (parseTs stored.timestamp) (parseTs s.timestamp) = true
      · rw [dedupStep_eq_of_lt m s stored hl hlt]
        exact mapLookup_mapSet_ne m s.ticker k s (Ne.symm hk)
      · rw [dedupStep_eq_of_ge m s stored hl hlt]

theorem mapLookup_foldl (l : List Signal) (m : List (String × Signal))
    (k : String) :
    mapLookup (l.foldl dedupStep m) k = foldK k l (mapLookup m k) := by
  induction l generalizing m with
  | nil => rfl
  | cons s l ih =>
    rw [List.foldl_cons]
    unfold foldK
    rw [List.foldl_cons, ← foldK, ih]
    congr 1
    rw [mapLookup_dedupStep]
    by_cases hk : s.ticker = k
    · rw [if_pos hk]
      have : (s.ticker == k) = true := by simp [hk]
      rw [this, if_pos rfl]
    · rw [if_neg hk]
      have : (s.ticker == k) = false := by simp [hk]
      rw [this]
      simp

theorem storedAfter_eq_lookup (signals : List Signal) (k : String) :
    mapLookup (signals.foldl dedupStep []) k = storedAfter signals k := by
  rw [mapLookup_foldl]
  rfl

/-! Well-formedness of the tickerMap. -/

theorem WFmap_nil : WFmap [] := by
  constructor
  · exact List.nodup_nil
  · intro p hp
    simp at hp

theorem WFmap_mapSet (m : List (String × Signal)) (k : String) (v : Signal)
    (h : WFmap m) (hv : v.ticker = k) : WFmap (mapSet m k v) := by
  constructor
  · rw [keys_mapSet]
    by_cases hany : m.any (fun p => p.1 == k) = true
    · rw [if_pos hany]
      exact h.1
    · rw [if_neg hany]
      rw [List.nodup_append]
      refine ⟨h.1, List.nodup_singleton k, ?_⟩
      intro a ha hb
      rcases List.mem_map.mp ha with ⟨p, hp, rfl⟩
      have hany2 : m.any (fun p => p.1 == k) = false := by
        rwa [Bool.not_eq_true] at hany
      have hne := List.any_eq_false.mp hany2 p hp
      have hpk : p.1 = k := List.mem_singleton.mp hb
      exact hne (by simp [hpk])
  · intro p hp
    unfold mapSet at hp
    by_cases hany : m.any (fun p => p.1 == k) = true
    · rw [if_pos hany] at hp
      rcases List.mem_map.mp hp with ⟨q, hq, rfl⟩
      by_cases hqk : q.1 = k
      · have : (q.1 == k) = true := by simp [hqk]
        rw [if_pos this]
        exact hv
      · have : (q.1 == k) = false := by simp [hqk]
        rw [if_neg (by simp [this])]
        exact h.2 q hq
    · rw [if_neg hany] at hp
      rcases List.mem_append.mp hp with hp1 | hp1
      · exact h.2 p hp1
      · rcases List.mem_singleton.mp hp1 with rfl
        exact hv

theorem WFmap_dedupStep (m : List (String × Signal)) (s : Signal)
    (h : WFmap m) : WFmap (dedupStep m s) := by
  cases hl : mapLookup m s.ticker with
  | none =>
    rw [dedupStep_eq_of_none m s hl]
    exact WFmap_mapSet m s.ticker s h rfl
  | some stored =>
    by_cases hlt : jsLt (parseTs stored.timestamp) (parseTs s.timestamp) = true
    · rw [dedupStep_eq_of_lt m s stored hl hlt]
      exact WFmap_mapSet m s.ticker s h rfl
    · rw [dedupStep_eq_of_ge m s stored hl hlt]
      exact h

theorem WFmap_foldl (l : List Signal) (m : List (String × Signal))
    (h : WFmap m) : WFmap (l.foldl dedupStep m) := by
  induction l generalizing m with
  | nil => exact h
  | cons s l ih =>
    rw [List.foldl_cons]
    exact ih _ (WFmap_dedupStep m s h)

/-! Bridging membership in the deduplicated output and tickerMap lookup. -/

theorem mapLookup_eq_some_of_mem (m : List (String × Signal)) (k : String)
    (v : Signal) (h : WFmap m) (hm : (k, v) ∈ m) : mapLookup m k = some v := by
  induction m with
  | nil => simp at hm
  | cons a m ih =>
    unfold mapLookup
    have hnodup : a.1 ∉ m.map Prod.fst ∧ (m.map Prod.fst).Nodup := by
      have h1 := h.1
      rw [List.map_cons] at h1
      exact List.nodup_cons.mp h1
    by_cases hk : a.1 = k
    · rw [List.find?_cons_of_pos _ (by simp [hk])]
      rcases List.mem_cons.mp hm with heq | htail
      · rw [← heq]
        rfl
      · exfalso
        have hkeys : k ∈ m.map Prod.fst :=
          List.mem_map.mpr ⟨(k, v), htail, rfl⟩
        rw [hk] at hnodup
        exact hnodup.1 hkeys
    · rw [List.find?_cons_of_neg _ (by simp [hk])]
      have htail : (k, v) ∈ m := by
        rcases List.mem_cons.mp hm with heq | htail
        · exfalso
          apply hk
          rw [← heq]
        · exact htail
      have hwf : WFmap m :=
        ⟨hnodup.2, fun p hp => h.2 p (List.mem_cons_of_mem a hp)⟩
      exact ih hwf htail

theorem mem_of_mapLookup_eq_some (m : List (String × Signal)) (k : String)
    (v : Signal) (h : mapLookup m k = some v) : (k, v) ∈ m := by
  unfold mapLookup at h
  cases hf : m.find? (fun p => p.1 == k) with
  | none =>
    rw [hf] at h
    simp at h
  | some p =>
    rw [hf] at h
    have hp2 : p.2 = v := by simpa using h
    have hp1 : p.1 = k := by simpa using List.find?_some hf
    have hmem := List.mem_of_find?_eq_some hf
    have : p = (k, v) := by
      cases p
      simp at hp1 hp2
      rw [hp1, hp2]
    rw [← this]
    exact hmem

theorem mem_removeDuplicateTickers_iff (signals : List Signal) (v : Signal) :
    v ∈ removeDuplicateTickers signals ↔
      storedAfter signals v.ticker = some v := by
  unfold removeDuplicateTickers
  rw [← storedAfter_eq_lookup]
  have hwf : WFmap (signals.foldl dedupStep []) :=
    WFmap_foldl signals [] WFmap_nil
  constructor
  · intro hv
    rcases List.mem_map.mp hv with ⟨p, hp, hsnd⟩
    apply mapLookup_eq_some_of_mem _ _ _ hwf
    have hpk : p.2.ticker = p.1 := hwf.2 p hp
    rw [← hsnd, hpk]
    exact hp
  · intro hl
    exact List.mem_map.mpr ⟨(v.ticker, v), mem_of_mapLookup_eq_some _ _ _ hl, rfl⟩

theorem filter_ticker_length_le_one (m : List (String × Signal)) (t : String)
    (h : WFmap m) :
    ((m.map Prod.snd).filter (fun r => r.ticker == t)).length ≤ 1 := by
  induction m with
  | nil => simp
  | cons a m ih =>
    have hnodup : a.1 ∉ m.map Prod.fst ∧ (m.map Prod.fst).Nodup := by
      have h1 := h.1
      rw [List.map_cons] at h1
      exact List.nodup_cons.mp h1
    have hwf : WFmap m :=
      ⟨hnodup.2, fun p hp => h.2 p (List.mem_cons_of_mem a hp)⟩
    rw [List.map_cons]
    by_cases hat : a.2.ticker = t
    · have ha1 : a.1 = t := by
        rw [← h.2 a (List.mem_cons_self a m), hat]
      have hempty : (m.map Prod.snd).filter (fun r => r.ticker == t) = [] := by
        rw [List.filter_eq_nil_iff]
        intro r hr
        rcases List.mem_map.mp hr with ⟨p, hp, rfl⟩
        have hp1 : p.2.ticker = p.1 := hwf.2 p hp
        intro hrt
        have hpt : p.1 = t := by
          rw [← hp1]
          simpa using hrt
        apply hnodup.1
        rw [ha1, ← hpt]
        exact List.mem_map.mpr ⟨p, hp, rfl⟩
      rw [List.filter_cons_of_pos (by simp [hat]), hempty]
      simp
    · rw [List.filter_cons_of_neg (by simp [hat])]
      exact ih hwf

/-! Timestamp-ordering lemmas for the per-key fold. -/

theorem jsLt_none_left (b : Option ℤ) : jsLt none b = false := by
  cases b <;> rfl

theorem jsLt_none_right (a : Option ℤ) : jsLt a none = false := by
  cases a <;> rfl

theorem jsLt_some_some (a b : ℤ) : jsLt (some a) (some b) = decide (a < b) :=
  rfl

theorem dedupStepK_none (s : Signal) : dedupStepK none s = some s := rfl

theorem dedupStepK_some (stored s : Signal) :
    dedupStepK (some stored) s =
      if jsLt (parseTs stored.timestamp) (parseTs s.timestamp) = true
      then some s else some stored := rfl

theorem foldK_nil (k : String) (acc : Option Signal) : foldK k [] acc = acc :=
  rfl

theorem foldK_cons (k : String) (s : Signal) (l : List Signal)
    (acc : Option Signal) :
    foldK k (s :: l) acc =
      foldK k l (if s.ticker == k then dedupStepK acc s else acc) := rfl

theorem foldK_sticky (k : String) (l : List Signal) (v : Signal)
    (hv : parseTs v.timestamp = none) : foldK k l (some v) = some v := by
  induction l with
  | nil => rfl
  | cons s l ih =>
    rw [foldK_cons]
    by_cases hk : (s.ticker == k) = true
    · rw [if_pos hk, dedupStepK_some, hv, jsLt_none_left,
        if_neg Bool.false_ne_true]
      exact ih
    · rw [if_neg hk]
      exact ih

theorem foldK_preserve (k : String) (l : List Signal) :
    ∀ (v : Signal) (tv : ℤ), parseTs v.timestamp = some tv →
      ∃ w tw, foldK k l (some v) = some w ∧ parseTs w.timestamp = some tw ∧
        tv ≤ tw := by
  induction l with
  | nil =>
    intro v tv hv
    exact ⟨v, tv, rfl, hv, le_refl tv⟩
  | cons s l ih =>
    intro v tv hv
    rw [foldK_cons]
    by_cases hk : (s.ticker == k) = true
    · rw [if_pos hk, dedupStepK_some]
      by_cases hlt : jsLt (parseTs v.timestamp) (parseTs s.timestamp) = true
      · rw [if_pos hlt]
        cases hs : parseTs s.timestamp with
        | none =>
          rw [hv, hs, jsLt_none_right] at hlt
          exact absurd hlt Bool.false_ne_true
        | some ts =>
          have htv : tv < ts := by
            rw [hv, hs, jsLt_some_some] at hlt
            exact of_decide_eq_true hlt
          rcases ih s ts hs with ⟨w, tw, hw, hwts, hle⟩
          exact ⟨w, tw, hw, hwts, le_of_lt (lt_of_lt_of_le htv hle)⟩
      · rw [if_neg hlt]
        exact ih v tv hv
    · rw [if_neg hk]
      exact ih v tv hv

theorem foldK_max (k : String) (l : List Signal) :
    ∀ (acc : Option Signal) (w : Signal) (tw : ℤ),
      foldK k l acc = some w → parseTs w.timestamp = some tw →
      (∀ s ∈ l, s.ticker = k → ∀ ts, parseTs s.timestamp = some ts → ts ≤ tw) ∧
      (∀ v tv, acc = some v → parseTs v.timestamp = some tv → tv ≤ tw) := by
  induction l with
  | nil =>
    intro acc w tw hfold hw
    constructor
    · intro s hs
      simp at hs
    · intro v tv hacc hv
      rw [foldK_nil] at hfold
      rw [hacc] at hfold
      have hvw : v = w := by injection hfold
      rw [hvw, hw] at hv
      have h2 : tw = tv := by injection hv
      rw [h2]
  | cons s0 l ih =>
    intro acc w tw hfold hw
    rw [foldK_cons] at hfold
    by_cases hk : (s0.ticker == k) = true
    · rw [if_pos hk] at hfold
      cases acc with
      | none =>
        rw [dedupStepK_none] at hfold
        have IH := ih (some s0) w tw hfold hw
        constructor
        · intro s hs hsk ts hsts
          rcases List.mem_cons.mp hs with rfl | hmem
          · exact IH.2 s ts rfl hsts
          · exact IH.1 s hmem hsk ts hsts
        · intro v tv hacc hv
          exact Option.noConfusion hacc
      | some v0 =>
        rw [dedupStepK_some] at hfold
        by_cases hlt : jsLt (parseTs v0.timestamp) (parseTs s0.timestamp) = true
        · rw [if_pos hlt] at hfold
          have IH := ih (some s0) w tw hfold hw
          constructor
          · intro s hs hsk ts hsts
            rcases List.mem_cons.mp hs with rfl | hmem
            · exact IH.2 s ts rfl hsts
            · exact IH.1 s hmem hsk ts hsts
          · intro v tv hacc hv
            have hveq : v0 = v := by injection hacc
            rw [← hveq] at hv
            cases hs0 : parseTs s0.timestamp with
            | none =>
              rw [hv, hs0, jsLt_none_right] at hlt
              exact absurd hlt Bool.false_ne_true
            | some ts0 =>
              have h1 : tv < ts0 := by
                rw [hv, hs0, jsLt_some_some] at hlt
                exact of_decide_eq_true hlt
              have h2 : ts0 ≤ tw := IH.2 s0 ts0 rfl hs0
              exact le_of_lt (lt_of_lt_of_le h1 h2)
        · rw [if_neg hlt] at hfold
          have IH := ih (some v0) w tw hfold hw
          constructor
          · intro s hs hsk ts hsts
            rcases List.mem_cons.mp hs with rfl | hmem
            · cases hv0 : parseTs v0.timestamp with
              | none =>
                have hstick := foldK_sticky k l v0 hv0
                rw [hstick] at hfold
                have hvw : v0 = w := by injection hfold
                rw [← hvw, hv0] at hw
                exact Option.noConfusion hw
              | some tv0 =>
                have hle : ts ≤ tv0 := by
                  have hnot : ¬ (tv0 < ts) := by
                    intro hcon
                    apply hlt
                    rw [hv0, hsts, jsLt_some_some]
                    exact decide_eq_true hcon
                  exact le_of_not_lt hnot
                have h2 : tv0 ≤ tw := IH.2 v0 tv0 rfl hv0
                exact le_trans hle h2
            · exact IH.1 s hmem hsk ts hsts
          · intro v tv hacc hv
            have hveq : v0 = v := by injection hacc
            rw [← hveq] at hv
            exact IH.2 v0 tv rfl hv
    · rw [if_neg hk] at hfold
      have IH := ih acc w tw hfold hw
      constructor
      · intro s hs hsk ts hsts
        rcases List.mem_cons.mp hs with rfl | hmem
        · exact absurd (by simp [hsk] : (s.ticker == k) = true) hk
        · exact IH.1 s hmem hsk ts hsts
      · exact IH.2

theorem foldK_first_unparsable (k : String) (l : List Signal) (s : Signal)
    (hfind : l.find? (fun r => r.ticker == k) = some s)
    (hs : parseTs s.timestamp = none) : foldK k l none = some s := by
  induction l with
  | nil => simp at hfind
  | cons s0 l ih =>
    by_cases hk : (s0.ticker == k) = true
    · rw [@List.find?_cons_of_pos _ (fun r => r.ticker == k) s0 l hk] at hfind
      have heq : s0 = s := by injection hfind
      rw [foldK_cons, if_pos hk, dedupStepK_none, heq]
      exact foldK_sticky k l s hs
    · rw [@List.find?_cons_of_neg _ (fun r => r.ticker == k) s0 l hk] at hfind
      rw [foldK_cons, if_neg hk]
      exact ih hfind

theorem foldK_first_parsable (k : String) (l : List Signal) (s : Signal)
    (t : ℤ) (hfind : l.find? (fun r => r.ticker == k) = some s)
    (hs : parseTs s.timestamp = some t) :
    ∃ w tw, foldK k l none = some w ∧ parseTs w.timestamp = some tw ∧
      t ≤ tw := by
  induction l with
  | nil => simp at hfind
  | cons s0 l ih =>
    by_cases hk : (s0.ticker == k) = true
    · rw [@List.find?_cons_of_pos _ (fun r => r.ticker == k) s0 l hk] at hfind
      have heq : s0 = s := by injection hfind
      rw [foldK_cons, if_pos hk, dedupStepK_none, heq]
      exact foldK_preserve k l s t hs
    · rw [@List.find?_cons_of_neg _ (fun r => r.ticker == k) s0 l hk] at hfind
      rw [foldK_cons, if_neg hk]
      exact ih hfind

/-! The deduplicated output of a non-empty input is non-empty. -/

theorem mapSet_ne_nil {α : Type} (m : List (String × α)) (k : String)
    (v : α) : mapSet m k v ≠ [] := by
  unfold mapSet
  by_cases h : m.any (fun p => p.1 == k) = true
  · rw [if_pos h]
    intro hc
    rw [List.map_eq_nil_iff] at hc
    rw [hc] at h
    simp at h
  · rw [if_neg h]
    simp

theorem dedupStep_ne_nil (m : List (String × Signal)) (s : Signal) :
    dedupStep m s ≠ [] := by
  cases hl : mapLookup m s.ticker with
  | none =>
    rw [dedupStep_eq_of_none m s hl]
    exact mapSet_ne_nil m s.ticker s
  | some stored =>
    by_cases hlt : jsLt (parseTs stored.timestamp) (parseTs s.timestamp) = true
    · rw [dedupStep_eq_of_lt m s stored hl hlt]
      exact mapSet_ne_nil m s.ticker s
    · rw [dedupStep_eq_of_ge m s stored hl hlt]
      intro hc
      rw [hc] at hl
      simp [mapLookup] at hl

theorem foldl_dedupStep_ne_nil (l : List Signal)
    (m : List (String × Signal)) (hm : m ≠ []) : l.foldl dedupStep m ≠ [] := by
  induction l generalizing m with
  | nil => exact hm
  | cons s l ih =>
    rw [List.foldl_cons]
    exact ih _ (dedupStep_ne_nil m s)

theorem removeDuplicateTickers_ne_nil (signals : List Signal)
    (h : signals ≠ []) : removeDuplicateTickers signals ≠ [] := by
  cases signals with
  | nil => exact absurd rfl h
  | cons s l =>
    unfold removeDuplicateTickers
    rw [List.foldl_cons]
    intro hc
    rw [List.map_eq_nil_iff] at hc
    exact foldl_dedupStep_ne_nil l (dedupStep [] s) (dedupStep_ne_nil [] s) hc

/-! Retention-sweep lemmas: the bottom-up deleteRow loop is the Date filter. -/

theorem cleanDeletions_nil (c : String) : cleanDeletions [] c = [] := rfl

theorem cleanDeletions_append (rs : List EnrichedRow) (r : EnrichedRow)
    (c : String) :
    cleanDeletions (rs ++ [r]) c =
      (if r.Date != "" && r.Date < c then [rs.length + 2] else []) ++
        cleanDeletions rs c := by
  have hhead : (rs ++ [r])[rs.length]? = some r := List.getElem?_concat_length rs r
  unfold cleanDeletions
  have hlen : (rs ++ [r]).length = rs.length + 1 := by simp
  rw [hlen, List.range_succ, List.reverse_append, List.reverse_singleton,
    List.singleton_append, List.filterMap_cons]
  have htail : List.filterMap (fun i =>
      match (rs ++ [r])[i]? with
      | some row => if row.Date != "" && row.Date < c then some (i + 2) else none
      | none => none) (List.range rs.length).reverse =
      List.filterMap (fun i =>
      match rs[i]? with
      | some row => if row.Date != "" && row.Date < c then some (i + 2) else none
      | none => none) (List.range rs.length).reverse := by
    apply List.filterMap_congr
    intro i hi
    have hilt : i < rs.length := List.mem_range.mp (List.mem_reverse.mp hi)
    rw [List.getElem?_append_left hilt]
  rw [htail, hhead]
  have hred : (match some r with
      | some row =>
          if row.Date != "" && row.Date < c then some (rs.length + 2) else none
      | none => (none : Option Nat)) =
      if r.Date != "" && r.Date < c then some (rs.length + 2) else none := rfl
  rw [hred]
  by_cases hbad : (r.Date != "" && r.Date < c) = true
  · rw [if_pos hbad, if_pos hbad]
    rfl
  · rw [if_neg hbad, if_neg hbad]
    rfl

theorem cleanDeletions_bounds (rs : List EnrichedRow) (c : String) :
    ∀ x ∈ cleanDeletions rs c, 2 ≤ x ∧ x ≤ rs.length + 1 := by
  intro x hx
  unfold cleanDeletions at hx
  rcases List.mem_filterMap.mp hx with ⟨i, hi, hfi⟩
  have hilt : i < rs.length := List.mem_range.mp (List.mem_reverse.mp hi)
  rcases hrow : rs[i]? with _ | row
  · rw [hrow] at hfi
    exact Option.noConfusion hfi
  · rw [hrow] at hfi
    have hfi2 : (if row.Date != "" && row.Date < c then some (i + 2) else none)
        = some x := hfi
    by_cases hbad : (row.Date != "" && row.Date < c) = true
    · rw [if_pos hbad] at hfi2
      have : i + 2 = x := by injection hfi2
      omega
    · rw [if_neg hbad] at hfi2
      exact Option.noConfusion hfi2

theorem cleanDeletions_sorted (rs : List EnrichedRow) (c : String) :
    (cleanDeletions rs c).Sorted (· > ·) := by
  induction rs using List.reverseRecOn with
  | nil => exact List.sorted_nil
  | append_singleton rs r ih =>
    rw [cleanDeletions_append]
    by_cases hbad : (r.Date != "" && r.Date < c) = true
    · rw [if_pos hbad, List.singleton_append, List.sorted_cons]
      constructor
      · intro b hb
        have := (cleanDeletions_bounds rs c b hb).2
        omega
      · exact ih
    · rw [if_neg hbad, List.nil_append]
      exact ih

theorem applyDeletes_cons (rows : List EnrichedRow) (k : Nat) (ds : List Nat) :
    applyDeletes rows (k :: ds) = applyDeletes (rows.eraseIdx (k - 2)) ds := rfl

theorem applyDeletes_append_last (ds : List Nat) :
    ∀ (l : List EnrichedRow) (r : EnrichedRow), ds.Sorted (· > ·) →
      (∀ x ∈ ds, 2 ≤ x ∧ x - 2 < l.length) →
      applyDeletes (l ++ [r]) ds = applyDeletes l ds ++ [r] := by
  induction ds with
  | nil =>
    intro l r _ _
    rfl
  | cons k ds ih =>
    intro l r hsort hbound
    rw [applyDeletes_cons, applyDeletes_cons]
    have hk := hbound k (List.mem_cons_self k ds)
    rw [List.eraseIdx_append_of_lt_length hk.2]
    apply ih
    · exact hsort.of_cons
    · intro x hx
      have hxk : k > x := (List.sorted_cons.mp hsort).1 x hx
      have hxb := hbound x (List.mem_cons_of_mem k hx)
      refine ⟨hxb.1, ?_⟩
      rw [List.length_eraseIdx_of_lt hk.2]
      omega

theorem applyDeletes_cleanDeletions (c : String) (rows : List EnrichedRow) :
    applyDeletes rows (cleanDeletions rows c) = rows.filter (keepRow c) := by
  induction rows using List.reverseRecOn with
  | nil => rfl
  | append_singleton rs r ih =>
    rw [cleanDeletions_append]
    by_cases hbad : (r.Date != "" && r.Date < c) = true
    · rw [if_pos hbad, List.singleton_append, applyDeletes_cons]
      have hidx : rs.length + 2 - 2 = rs.length := by omega
      have herase : (rs ++ [r]).eraseIdx (rs.length + 2 - 2) = rs := by
        rw [hidx, List.eraseIdx_append_of_length_le (le_refl rs.length)]
        simp
      rw [herase, ih, List.filter_append]
      have hr : List.filter (keepRow c) [r] = [] := by
        simp [keepRow]
        simpa using hbad
      rw [hr, List.append_nil]
    · rw [if_neg hbad, List.nil_append]
      rw [applyDeletes_append_last (cleanDeletions rs c) rs r
        (cleanDeletions_sorted rs c) ?bounds]
      case bounds =>
        intro x hx
        have := cleanDeletions_bounds rs c x hx
        omega
      rw [ih, List.filter_append]
      have hr : List.filter (keepRow c) [r] = [r] := by
        simp [keepRow]
        exact or_iff_not_imp_left.mpr (by simpa using hbad)
      rw [hr]

theorem cleanOldArchiveData_none (c : String) :
    cleanOldArchiveData none c = none := rfl

theorem cleanOldArchiveData_some (c : String) (rows : List EnrichedRow) :
    cleanOldArchiveData (some rows) c = some (rows.filter (keepRow c)) := by
  show (if archiveHeaders.contains "Date" = true
      then some (applyDeletes rows (cleanDeletions rows c)) else some rows) =
    some (rows.filter (keepRow c))
  rw [if_pos (by rfl), applyDeletes_cleanDeletions]

/-! Helper characterizations of the upside computation and the per-row filter. -/

theorem upsideOf_none_iff (cp st : NumField) :
    upsideOf cp st = none ↔ ¬ (cp.truthy = true ∧ st.truthy = true) := by
  unfold upsideOf
  by_cases h : (cp.truthy && st.truthy) = true
  · rw [if_pos h]
    have h2 := Bool.and_eq_true_iff.mp h
    simp [h2.1, h2.2]
  · rw [if_neg h]
    have h2 : ¬ (cp.truthy = true ∧ st.truthy = true) := fun hc =>
      h (Bool.and_eq_true_iff.mpr hc)
    simp [h2]

theorem upsideOf_num (p s : ℚ) (hp : p ≠ 0) (hs : s ≠ 0) :
    upsideOf (.num p) (.num s) = some (toFixed1 ((s - p) / p * 100)) := by
  unfold upsideOf
  rw [if_pos (by simp [NumField.truthy, hp, hs])]
  rfl

theorem numReject_iff (f : NumField) :
    (f.truthy && (f.isNaNJs || f.le0)) = true ↔
      ∃ q, f = NumField.num q ∧ q < 0 := by
  cases f with
  | missing => simp [NumField.truthy, NumField.isNaNJs, NumField.le0]
  | nan => simp [NumField.truthy, NumField.isNaNJs, NumField.le0]
  | num q =>
    simp only [NumField.truthy, NumField.isNaNJs, NumField.le0,
      Bool.false_or, Bool.and_eq_true, bne_iff_ne, ne_eq, decide_eq_true_eq,
      NumField.num.injEq]
    constructor
    · intro h
      exact ⟨q, rfl, lt_of_le_of_ne h.2 h.1⟩
    · rintro ⟨q2, rfl, hq⟩
      exact ⟨ne_of_lt hq, le_of_lt hq⟩

theorem confReject_iff (f : NumField) :
    (f.truthy && (f.isNaNJs || f.lt0 || f.gt100)) = true ↔
      ∃ q, f = NumField.num q ∧ (q < 0 ∨ 100 < q) := by
  cases f with
  | missing => simp [NumField.truthy, NumField.isNaNJs, NumField.lt0, NumField.gt100]
  | nan => simp [NumField.truthy, NumField.isNaNJs, NumField.lt0, NumField.gt100]
  | num q =>
    simp only [NumField.truthy, NumField.isNaNJs, NumField.lt0, NumField.gt100,
      Bool.false_or, Bool.and_eq_true, Bool.or_eq_true, bne_iff_ne, ne_eq,
      decide_eq_true_eq, NumField.num.injEq]
    constructor
    · intro h
      exact ⟨q, rfl, h.2⟩
    · rintro ⟨q2, rfl, hq⟩
      refine ⟨?_, hq⟩
      rcases hq with h1 | h1
      · exact ne_of_lt h1
      · exact ne_of_gt (lt_trans (by norm_num) h1)

theorem tsReject_iff (ts : TsField) :
    (ts.truthy && !ts.isDateObj && (parseTs ts).isNone) = true ↔
      ts = TsField.strUnparsable := by
  cases ts <;> simp [TsField.truthy, TsField.isDateObj, parseTs]

/-! The claims. -/

/-- C1: the spec states that merge(signals, technical, fundamentals,
sentiment, nameMap, runDate) returns one EnrichedRow per deduplicated
signal, each carrying the run date. The code slips: dateString is a const
local to syncData_web, not a parameter of mergeSignalData and not a
global, so the first row literal raises a ReferenceError; for every
non-empty signal list the merge throws instead of returning rows. -/
theorem c1_merge_raises_reference_error (finalSignals : List Signal)
    (technicalData : List TechRecord) (fundamentals : List FundRecord)
    (marketSentiment : Sentiment) (companyNames : List (String × String))
    (h : finalSignals ≠ []) :
    mergeSignalData finalSignals technicalData fundamentals marketSentiment
      companyNames = .error .dateStringNotDefined := by
  have hne := removeDuplicateTickers_ne_nil finalSignals h
  have hempty : (removeDuplicateTickers finalSignals).isEmpty ≠ true := by
    intro hc
    exact hne (List.isEmpty_iff.mp hc)
  unfold mergeSignalData
  rw [if_neg hempty]

/-- Witness for C1 at a concrete one-signal input. -/
theorem c1_witness :
    [sigA] ≠ [] ∧
      mergeSignalData [sigA] [] [] sent0 [] = .error .dateStringNotDefined :=
  ⟨by decide, c1_merge_raises_reference_error [sigA] [] [] sent0 [] (by decide)⟩

/-- C2: the spec states that the post-merge gate succeeds on non-empty
merge output (every EnrichedRow exposes the required fields). The code
slips: validateEnrichedData checks the lower-case keys ticker,
companyName, ..., currentPrice with hasOwnProperty, while every
EnrichedRow carries only the PascalCase keys of the merge literal, so the
gate returns false for every list of EnrichedRows and every run with
merge output is aborted at this gate. -/
theorem c2_validate_enriched_always_false (enrichedData : List EnrichedRow) :
    validateEnrichedData enrichedData = false := by
  unfold validateEnrichedData
  have h : requiredEnrichedFields.all
      (fun f => enrichedRowKeys.contains f) = false := by decide
  rw [h, Bool.and_false]

/-- C3 counterexample: for the input consisting of a TSLA record with an
unparsable timestamp followed by a TSLA record with a parsable one, the
Deduplicator retains the unparsable record, whose timestamp is not
greater than or equal to the discarded parsable timestamp under the
ordering the spec gives (unparsable earlier than parsable). -/
theorem c3_counterexample :
    removeDuplicateTickers [sigTslaBad, sigTslaGood] = [sigTslaBad] ∧
      sigTslaGood.ticker = sigTslaBad.ticker ∧
      ¬ specTsLe (parseTs sigTslaGood.timestamp) (parseTs sigTslaBad.timestamp) := by
  refine ⟨by decide, by decide, by decide⟩

/-- C3 amended: the output of the Deduplicator contains at most one record
per ticker; and whenever the retained record has a parsable timestamp,
that timestamp is greater than or equal to every parsable timestamp among
same-ticker records of the input. (Unconditional maximality fails: an
unparsable-timestamp record stored first is never replaced, see the
counterexample.) -/
theorem c3_dedup_unique_and_parsable_max (signals : List Signal) (t : String) :
    ((removeDuplicateTickers signals).filter (fun r => r.ticker == t)).length ≤ 1 ∧
    (∀ v ∈ removeDuplicateTickers signals, ∀ tv, parseTs v.timestamp = some tv →
      ∀ s ∈ signals, s.ticker = v.ticker → ∀ ts, parseTs s.timestamp = some ts →
        ts ≤ tv) := by
  constructor
  · unfold removeDuplicateTickers
    exact filter_ticker_length_le_one _ t (WFmap_foldl signals [] WFmap_nil)
  · intro v hv tv htv s hs hst ts hts
    have hstored := (mem_removeDuplicateTickers_iff signals v).mp hv
    have hfold : foldK v.ticker signals none = some v := hstored
    have hmax := (foldK_max v.ticker signals none v tv hfold htv).1
    exact hmax s hs hst ts hts

/-- Witness for C3 at two MSFT records with timestamps 5 and 10. -/
theorem c3_witness :
    sigMsftLate ∈ removeDuplicateTickers [sigMsftEarly, sigMsftLate] ∧
    parseTs sigMsftLate.timestamp = some 10 ∧
    sigMsftEarly ∈ [sigMsftEarly, sigMsftLate] ∧
    sigMsftEarly.ticker = sigMsftLate.ticker ∧
    parseTs sigMsftEarly.timestamp = some 5 ∧ (5 : ℤ) ≤ 10 :=
  ⟨by decide, by decide, by decide, by decide, by decide,
    (c3_dedup_unique_and_parsable_max [sigMsftEarly, sigMsftLate] "MSFT").2
      sigMsftLate (by decide) 10 (by decide) sigMsftEarly (by decide)
      (by decide) 5 (by decide)⟩

/-- C4 counterexample: a signal with sellTarget 0 joined to a technical
record with currentPrice 145 has both inputs present and currentPrice
nonzero, so the claim demands Upside = round((0 - 145) / 145 * 100, 1);
the code computes null because 0 is falsy. -/
theorem c4_counterexample :
    (enrichRow "2024-01-01" (buildTechMap [techA]) (buildFundMap []) sent0 []
        sigZeroTarget).CurrentPrice = NumField.num 145 ∧
    (enrichRow "2024-01-01" (buildTechMap [techA]) (buildFundMap []) sent0 []
        sigZeroTarget).SellTarget = NumField.num 0 ∧
    (145 : ℚ) ≠ 0 ∧
    (enrichRow "2024-01-01" (buildTechMap [techA]) (buildFundMap []) sent0 []
        sigZeroTarget).Upside ≠ some (toFixed1 ((0 - 145) / 145 * 100)) ∧
    (enrichRow "2024-01-01" (buildTechMap [techA]) (buildFundMap []) sent0 []
        sigZeroTarget).Upside = none := by
  have hnone : (enrichRow "2024-01-01" (buildTechMap [techA]) (buildFundMap [])
      sent0 [] sigZeroTarget).Upside = none := by decide
  refine ⟨by decide, by decide, by decide, ?_, hnone⟩
  rw [hnone]
  intro hc
  exact Option.noConfusion hc

/-- C4 amended: for every EnrichedRow built by the merge enrichment, Upside
is null unless both the joined currentPrice and the sellTarget are truthy
(present, numeric and nonzero); and when both are nonzero numbers, Upside
equals (sellTarget - currentPrice) / currentPrice * 100 rounded to one
decimal place. -/
theorem c4_upside (dateString : String)
    (techMap : List (String × TechRecord)) (fundMap : List (String × FundRecord))
    (marketSentiment : Sentiment) (companyNames : List (String × String))
    (signal : Signal) (row : EnrichedRow)
    (hrow : row = enrichRow dateString techMap fundMap marketSentiment
      companyNames signal) :
    (row.Upside = none ↔
      ¬ (row.CurrentPrice.truthy = true ∧ row.SellTarget.truthy = true)) ∧
    (∀ p s, row.CurrentPrice = NumField.num p → row.SellTarget = NumField.num s →
      p ≠ 0 → s ≠ 0 → row.Upside = some (toFixed1 ((s - p) / p * 100))) := by
  subst hrow
  constructor
  · exact upsideOf_none_iff _ _
  · intro p s hcp hst hp hs
    have hcp2 : ((mapLookup techMap signal.ticker).getD
        TechRecord.emptyObj).currentPrice = NumField.num p := hcp
    have hst2 : signal.sellTarget = NumField.num s := hst
    show upsideOf ((mapLookup techMap signal.ticker).getD
        TechRecord.emptyObj).currentPrice signal.sellTarget = _
    rw [hcp2, hst2]
    exact upsideOf_num p s hp hs

/-- Witness for C4 at the concrete enrichment of sigA with techA. -/
theorem c4_witness :
    rowA = enrichRow "2024-01-01" (buildTechMap [techA]) (buildFundMap [])
        sent0 [] sigA ∧
    rowA.CurrentPrice = NumField.num 145 ∧ rowA.SellTarget = NumField.num 150 ∧
    (145 : ℚ) ≠ 0 ∧ (150 : ℚ) ≠ 0 ∧
    rowA.Upside = some (toFixed1 ((150 - 145) / 145 * 100)) :=
  ⟨rfl, by decide, by decide, by decide, by decide,
    (c4_upside "2024-01-01" (buildTechMap [techA]) (buildFundMap []) sent0 []
      sigA rowA rfl).2 145 150 (by decide) (by decide) (by decide) (by decide)⟩

/-- C5 counterexample: an EnrichedRow whose CurrentPrice is the number 0
(which satisfies CurrentPrice less than or equal to 0, so the claim
demands rejection) passes the per-row filter, because 0 is falsy and the
truthiness guard skips the price check. -/
theorem c5_counterexample :
    (enrichRow "2024-01-01" (buildTechMap [techZero]) (buildFundMap []) sent0 []
        sigA).CurrentPrice = NumField.num 0 ∧
    (0 : ℚ) ≤ 0 ∧
    rowPasses (enrichRow "2024-01-01" (buildTechMap [techZero]) (buildFundMap [])
        sent0 [] sigA) = true := by
  refine ⟨by decide, by decide, by decide⟩

/-- C5 amended: the per-row filter rejects exactly the rows whose
CurrentPrice is a negative number, or whose SellTarget is a negative
number, or whose Confidence is a number outside [0, 100], or whose
Timestamp is a present non-Date value that does not parse; falsy field
values (absent, 0, NaN) skip their checks, so in particular a row with
CurrentPrice 0 is kept. -/
theorem c5_filter_characterization (row : EnrichedRow) :
    rowPasses row = false ↔
      ((∃ q, row.CurrentPrice = NumField.num q ∧ q < 0) ∨
       (∃ q, row.SellTarget = NumField.num q ∧ q < 0) ∨
       (∃ q, row.Confidence = NumField.num q ∧ (q < 0 ∨ 100 < q)) ∨
       row.Timestamp = TsField.strUnparsable) := by
  unfold rowPasses
  by_cases h1 : (row.CurrentPrice.truthy &&
      (row.CurrentPrice.isNaNJs || row.CurrentPrice.le0)) = true
  · rw [if_pos h1]
    constructor
    · intro _
      exact Or.inl ((numReject_iff _).mp h1)
    · intro _
      rfl
  · rw [if_neg h1]
    by_cases h2 : (row.SellTarget.truthy &&
        (row.SellTarget.isNaNJs || row.SellTarget.le0)) = true
    · rw [if_pos h2]
      constructor
      · intro _
        exact Or.inr (Or.inl ((numReject_iff _).mp h2))
      · intro _
        rfl
    · rw [if_neg h2]
      by_cases h3 : (row.Confidence.truthy && (row.Confidence.isNaNJs ||
          row.Confidence.lt0 || row.Confidence.gt100)) = true
      · rw [if_pos h3]
        constructor
        · intro _
          exact Or.inr (Or.inr (Or.inl ((confReject_iff _).mp h3)))
        · intro _
          rfl
      · rw [if_neg h3]
        by_cases h4 : (row.Timestamp.truthy && !row.Timestamp.isDateObj &&
            (parseTs row.Timestamp).isNone) = true
        · rw [if_pos h4]
          constructor
          · intro _
            exact Or.inr (Or.inr (Or.inr ((tsReject_iff _).mp h4)))
          · intro _
            rfl
        · rw [if_neg h4]
          constructor
          · intro hc
            exact Bool.noConfusion hc
          · intro hRHS
            exfalso
            rcases hRHS with hA | hB | hC | hD
            · exact h1 ((numReject_iff _).mpr hA)
            · exact h2 ((numReject_iff _).mpr hB)
            · exact h3 ((confReject_iff _).mpr hC)
            · exact h4 ((tsReject_iff _).mpr hD)

/-- C6: the spec expects a run whose per-row filter rejects every row to
fail with the no-valid-signals error while appending exactly one
ErrorLedger record and leaving the archive untouched. In the code the
per-row filter is unreachable: mergeSignalData raises the dateString
ReferenceError first (and even with that fixed, validateEnrichedData
rejects every merge output). The run does fail with one new ledger record
and an unchanged archive, but with the ReferenceError, never with the
no-valid-signals error. This theorem evaluates the pipeline at a
one-signal input whose only row would fail the filter (sellTarget -5). -/
theorem c6_run_fails_before_filter :
    (syncData_web "2023-12-02" [sigNegTarget] [techA] [] sent0 [] stA).1 =
        .error .dateStringNotDefined ∧
    (syncData_web "2023-12-02" [sigNegTarget] [techA] [] sent0 [] stA).1 ≠
        .error .noValidSignals ∧
    (syncData_web "2023-12-02" [sigNegTarget] [techA] [] sent0 [] stA).2.archive =
        stA.archive ∧
    (syncData_web "2023-12-02" [sigNegTarget] [techA] [] sent0 [] stA).2.errors =
        stA.errors ++ [SyncError.dateStringNotDefined] ∧
    rowPasses (enrichRow "2024-01-01" (buildTechMap [techA]) (buildFundMap [])
        sent0 [] sigNegTarget) = false := by
  have h1 : (syncData_web "2023-12-02" [sigNegTarget] [techA] [] sent0 []
      stA).1 = .error .dateStringNotDefined := rfl
  refine ⟨h1, ?_, rfl, rfl, by decide⟩
  rw [h1]
  intro hc
  injection hc with h2
  exact SyncError.noConfusion h2

/-- C7: one retention sweep of an existing archive keeps exactly the rows
whose Date cell is not a truthy string lexicographically below the cutoff
(equivalently, removes exactly the rows dated strictly before the
cutoff), preserving their order, and sweeping twice with the same cutoff
equals sweeping once. -/
theorem c7_retention_filter_and_idempotent (cutoffString : String) :
    (∀ rows : List EnrichedRow,
      cleanOldArchiveData (some rows) cutoffString =
        some (rows.filter (keepRow cutoffString))) ∧
    (∀ archive : Option (List EnrichedRow),
      cleanOldArchiveData (cleanOldArchiveData archive cutoffString)
        cutoffString = cleanOldArchiveData archive cutoffString) := by
  constructor
  · intro rows
    exact cleanOldArchiveData_some cutoffString rows
  · intro archive
    cases archive with
    | none => rfl
    | some rows =>
      rw [cleanOldArchiveData_some, cleanOldArchiveData_some,
        List.filter_filter]
      simp [Bool.and_self]

/-- C8 counterexample: with the unparsable-timestamp TSLA record first in
the input and a parsable-timestamp TSLA record second, the Deduplicator
retains the unparsable record, not the parsable one: NaN comparisons are
false, so the stored record is never replaced. This refutes the claim
that a record with a valid timestamp wins regardless of input order. -/
theorem c8_counterexample :
    removeDuplicateTickers [sigTslaBad, sigTslaGood] = [sigTslaBad] ∧
    sigTslaBad.ticker = "TSLA" ∧ sigTslaGood.ticker = "TSLA" ∧
    parseTs sigTslaBad.timestamp = none ∧
    parseTs sigTslaGood.timestamp = some 100 := by
  refine ⟨by decide, by decide, by decide, by decide, by decide⟩

/-- C8 amended: the first record of a ticker decides the outcome. If the
first record with the given ticker has an unparsable timestamp, that very
record is retained (it is never replaced, whatever parsable records
follow); if the first record has a parsable timestamp, the retained
record has a parsable timestamp at least as late. Every stored entry is a
member of the deduplicated output. -/
theorem c8_first_record_decides (signals : List Signal) (k : String)
    (s : Signal) (hfind : signals.find? (fun r => r.ticker == k) = some s) :
    (parseTs s.timestamp = none → storedAfter signals k = some s) ∧
    (∀ t, parseTs s.timestamp = some t →
      ∃ w tw, storedAfter signals k = some w ∧
        parseTs w.timestamp = some tw ∧ t ≤ tw) ∧
    (∀ w, storedAfter signals k = some w →
      w ∈ removeDuplicateTickers signals) := by
  refine ⟨?_, ?_, ?_⟩
  · intro hs
    exact foldK_first_unparsable k signals s hfind hs
  · intro t hs
    exact foldK_first_parsable k signals s t hfind hs
  · intro w hw
    rw [← storedAfter_eq_lookup] at hw
    unfold removeDuplicateTickers
    exact List.mem_map.mpr ⟨(k, w), mem_of_mapLookup_eq_some _ _ _ hw, rfl⟩

/-- Witness for C8 at the concrete two-record TSLA input. -/
theorem c8_witness :
    ([sigTslaBad, sigTslaGood].find? (fun r => r.ticker == "TSLA") =
        some sigTslaBad) ∧
    parseTs sigTslaBad.timestamp = none ∧
    storedAfter [sigTslaBad, sigTslaGood] "TSLA" = some sigTslaBad :=
  ⟨by decide, by decide,
    (c8_first_record_decides [sigTslaBad, sigTslaGood] "TSLA" sigTslaBad
      (by decide)).1 (by decide)⟩

/-- C9: the ReadAPI is total over its read path. When the archive sheet
does not exist it returns the well-formed payload with message Archive
data not found (before the header-setting code runs), and any error
raised during the read path is caught and returned as a structured error
payload; the transport always carries a response body. -/
theorem c9_doGet_total_wellformed
    (readResult : Except String (Option (List EnrichedRow))) :
    (readResult = .ok none →
      doGet readResult = .errorBody "Archive data not found" none) ∧
    (∀ e, readResult = .error e →
      doGet readResult = .errorBody "Failed to fetch data" (some e)) := by
  constructor
  · intro h
    rw [h]
    rfl
  · intro e h
    rw [h]
    rfl

/-- Witness for C9 at the missing-archive state. -/
theorem c9_witness :
    ((.ok none : Except String (Option (List EnrichedRow))) = .ok none) ∧
    doGet (.ok none) = .errorBody "Archive data not found" none :=
  ⟨rfl, (c9_doGet_total_wellformed (.ok none)).1 rfl⟩

/-- C10: when a signal arrives whose ticker already has a stored record
and both timestamps parse to the same instant, the strictly-less-than
comparison fails and the stored (earlier in input order) record is kept:
appending the tying record leaves the deduplication output unchanged, so
in particular of two same-ticker records with equal parsed timestamps the
first is retained, and the result is a deterministic function of the
input sequence. -/
theorem c10_tie_keeps_first (l : List Signal) (s r : Signal) (v : ℤ)
    (hstored : mapLookup (l.foldl dedupStep []) s.ticker = some r)
    (hr : parseTs r.timestamp = some v) (hs : parseTs s.timestamp = some v) :
    removeDuplicateTickers (l ++ [s]) = removeDuplicateTickers l := by
  unfold removeDuplicateTickers
  rw [List.foldl_append, List.foldl_cons, List.foldl_nil]
  congr 1
  apply dedupStep_eq_of_ge _ _ r hstored
  rw [hr, hs, jsLt_some_some]
  simp

/-- Witness for C10 at two NVDA records tying at instant 7. -/
theorem c10_witness :
    (mapLookup ([sigTieOne].foldl dedupStep []) sigTieTwo.ticker =
        some sigTieOne) ∧
    parseTs sigTieOne.timestamp = some 7 ∧
    parseTs sigTieTwo.timestamp = some 7 ∧
    removeDuplicateTickers ([sigTieOne] ++ [sigTieTwo]) =
      removeDuplicateTickers [sigTieOne] :=
  ⟨by decide, by decide, by decide,
    c10_tie_keeps_first [sigTieOne] sigTieTwo sigTieOne 7 (by decide)
      (by decide) (by decide)⟩

end MarketSignal
